import Mathlib

/-!
Verification of the Soryn license panel's bulk restore engine.

This file embeds the restore-relevant parts of the server source
(the backup text parser, the duration-derivation rule, the
JSON-extraction step of the parse endpoint, the restore start
handler, and the background restore loop) as executable Lean
definitions, and proves or refutes the specification claims about
them.

Modelling notes, kept close to the JavaScript source:
* JS strings are modelled as Lean `String`/`List Char`;
  `toLowerCase` is modelled with `Char.toLower` (ASCII case map; the
  inputs relevant here are ASCII).
* The JS whitespace class used by `trim` and the split regex is
  modelled by the common members of the class (space, tab, LF, CR,
  VT, FF, NBSP, LS, PS, BOM).
* The network call `makeKeyAuthRequest` either resolves to a decoded
  response with a `success` flag and optional `message`, or rejects
  (transport error or undecodable body); it is modelled by a
  `CallResult` supplied by an environment schedule.
* Timing (`sleep` calls) is modelled as state-preserving, so it
  contributes no snapshots of its own; every snapshot of the shared
  `restoreStatus` object after each of the worker's field mutations
  is recorded in an explicit trace.
* JS member access is modelled as own-property lookup, extended with
  the one inherited member the code's expression can meet: an array's
  built-in keys method (which is a truthy function value).
-/

namespace Soryn

/-! ## String primitives mirroring the JavaScript ones -/

/-- Membership in the JS whitespace class, as used by trim and the
split regex in the source. -/
def isJsWs (c : Char) : Bool :=
  c == ' ' || c == '\t' || c == '\n' || c == '\r' ||
  c == Char.ofNat 0x0B || c == Char.ofNat 0x0C || c == Char.ofNat 0xA0 ||
  c == Char.ofNat 0x2028 || c == Char.ofNat 0x2029 || c == Char.ofNat 0xFEFF

/-- Boolean test that the first list is a leading segment of the
second; this is the char-level core of JS startsWith. -/
def chPre : List Char → List Char → Bool
  | [], _ => true
  | _ :: _, [] => false
  | a :: as, b :: bs => a == b && chPre as bs

/-- Boolean substring occurrence test; the char-level core of JS
includes. -/
def chSub (p : List Char) : List Char → Bool
  | [] => chPre p []
  | l@(_ :: rest) => chPre p l || chSub p rest

/-- Model of JS s.includes(pat). -/
def jsIncludes (s pat : String) : Bool := chSub pat.data s.data

/-- Model of JS s.startsWith(pat). -/
def jsStartsWith (s pat : String) : Bool := chPre pat.data s.data

/-- Model of JS s.toLowerCase() (ASCII case map). -/
def jsToLower (s : String) : String := String.mk (s.data.map Char.toLower)

/-- Drop leading JS whitespace characters. -/
def dropWs : List Char → List Char
  | [] => []
  | c :: cs => if isJsWs c then dropWs cs else c :: cs

/-- Model of JS s.trim(): drop leading and trailing whitespace. -/
def trimCh (l : List Char) : List Char :=
  ((dropWs l).reverse |> dropWs).reverse

/-- Model of JS s.trim() on strings. -/
def jsTrim (s : String) : String := String.mk (trimCh s.data)

/-- Model of JS content.split on the newline character: split at
each LF, keeping empty pieces. -/
def splitLines : List Char → List (List Char)
  | [] => [[]]
  | c :: cs =>
    if c = '\n' then [] :: splitLines cs
    else
      match splitLines cs with
      | [] => [[c]]
      | t :: ts => (c :: t) :: ts

/-- Worker for the split on runs of two or more whitespace
characters. tok is the current token (reversed), pend is the
current run of not-yet-classified whitespace (reversed): a run of
length at least two separates tokens (as the greedy regex match
does), a shorter run stays inside the token. -/
def splitWsGo : List Char → List Char → List Char → List (List Char)
  | [], tok, pend =>
    if 2 ≤ pend.length then [tok.reverse, []]
    else [(pend ++ tok).reverse]
  | c :: cs, tok, pend =>
    if isJsWs c then splitWsGo cs tok (c :: pend)
    else if 2 ≤ pend.length then tok.reverse :: splitWsGo cs [c] []
    else splitWsGo cs (c :: (pend ++ tok)) []

/-- Model of the JS split on the two-or-more-whitespace regex. -/
def splitWsRuns (l : List Char) : List (List Char) := splitWsGo l [] []

/-- Model of the anchored digits-only regex test: at least one
character and every character a decimal digit. -/
def allDigits : List Char → Bool
  | [] => false
  | l => l.all (fun c => c.isDigit)

/-! ## Duration derivation (parseDurationFromKeyName) -/

/-- Embedding of parseDurationFromKeyName: lowercase the key name and
return the first matching marker's duration, defaulting to the
unlimited sentinel. -/
def parseDurationFromKeyName (keyName : String) : Nat :=
  let lower := jsToLower keyName
  if jsIncludes lower "lifetime" then 999999999
  else if jsIncludes lower "1month" || jsIncludes lower "-1m" then 2592000
  else if jsIncludes lower "1week" || jsIncludes lower "-1w" then 604800
  else if jsIncludes lower "1day" || jsIncludes lower "-1d" then 86400
  else if jsIncludes lower "1year" || jsIncludes lower "-1y" then 31536000
  else 999999999

/-! ## Backup text parser (parseBackupText) -/

/-- A license record produced by the backup parser; status and level
are kept as strings, exactly as in the source. -/
structure ParsedLicense where
  key : String
  status : String
  level : String
  duration : Nat
deriving DecidableEq, Repr

/-- The five decorative-border literals exactly as stored in the
source file: each is the three-character mojibake sequence that the
file actually contains (U+00E2 U+201D followed by U+20AC, U+0152,
U+201A, U+201D, U+0153 respectively), not a box-drawing character. -/
def borderLitA : String := String.mk [Char.ofNat 0xE2, Char.ofNat 0x201D, Char.ofNat 0x20AC]

/-- Second border literal of the source (see borderLitA). -/
def borderLitB : String := String.mk [Char.ofNat 0xE2, Char.ofNat 0x201D, Char.ofNat 0x152]

/-- Third border literal of the source (see borderLitA). -/
def borderLitC : String := String.mk [Char.ofNat 0xE2, Char.ofNat 0x201D, Char.ofNat 0x201A]

/-- Fourth border literal of the source (see borderLitA). -/
def borderLitD : String := String.mk [Char.ofNat 0xE2, Char.ofNat 0x201D, Char.ofNat 0x201D]

/-- Fifth border literal of the source (see borderLitA). -/
def borderLitE : String := String.mk [Char.ofNat 0xE2, Char.ofNat 0x201D, Char.ofNat 0x153]

/-- The skip condition of the parser loop: blank lines, the border
literals, the column-header line, and the summary and menu phrases. -/
def skipBackupLine (trimmed : String) : Bool :=
  trimmed == "" ||
  jsStartsWith trimmed borderLitA || jsStartsWith trimmed borderLitB ||
  jsStartsWith trimmed borderLitC || jsStartsWith trimmed borderLitD ||
  jsStartsWith trimmed borderLitE ||
  jsStartsWith trimmed "Key" || jsIncludes trimmed "license(s):" ||
  jsIncludes trimmed "MAIN MENU" || jsIncludes trimmed "Select option"

/-- Per-line record extraction of the parser: split on runs of two or
more whitespace characters, accept the line only when the first
column starts with the product marker (case-insensitively), default
the status and level columns, and derive the duration from the key
text. -/
def parseBackupLine (trimmed : String) : Option ParsedLicense :=
  match splitWsRuns trimmed.data with
  | [] => none
  | p0 :: ps =>
    let key := jsTrim (String.mk p0)
    if jsStartsWith (jsToLower key) "soryn" then
      let status :=
        match ps with
        | [] => "Not Used"
        | p1 :: _ => jsTrim (String.mk p1)
      let level :=
        match ps with
        | _ :: p2 :: _ =>
          let l2 := jsTrim (String.mk p2)
          if allDigits l2.data then l2 else "1"
        | _ => "1"
      some ⟨key, status, level, parseDurationFromKeyName key⟩
    else none

/-- The parser loop over the split lines. -/
def parseBackupLines : List (List Char) → List ParsedLicense
  | [] => []
  | line :: rest =>
    let trimmed := String.mk (trimCh line)
    if skipBackupLine trimmed then parseBackupLines rest
    else
      match parseBackupLine trimmed with
      | some r => r :: parseBackupLines rest
      | none => parseBackupLines rest

/-- Embedding of parseBackupText. -/
def parseBackupText (content : String) : List ParsedLicense :=
  parseBackupLines (splitLines content.data)

/-! ## JSON values and the structured branch of the parse endpoint -/

/-- A decoded JSON document, plus the two JS values the extraction
expression can produce besides document parts: the undefined value
(missing member) and a built-in function value (an inherited array
method). -/
inductive JValue where
  | null
  | undefinedVal
  | bool (b : Bool)
  | num (n : Int)
  | str (s : String)
  | arr (elems : List JValue)
  | obj (fields : List (String × JValue))
  | builtinFn

/-- JS truthiness of the modelled values. -/
def truthy : JValue → Bool
  | .null => false
  | .undefinedVal => false
  | .bool b => b
  | .num n => n != 0
  | .str s => s != ""
  | .arr _ => true
  | .obj _ => true
  | .builtinFn => true

/-- Own-property lookup in an object's field list. -/
def jsGetField (fields : List (String × JValue)) (k : String) : JValue :=
  match fields with
  | [] => .undefinedVal
  | (k2, v) :: rest => if k2 == k then v else jsGetField rest k

/-- JS member access for the values the extraction expression can
meet: own properties of objects, and on arrays the inherited
built-in keys method (a truthy function); every other access yields
undefined. -/
def jsGet : JValue → String → JValue
  | .obj fs, k => jsGetField fs k
  | .arr _, k => if k == "keys" then .builtinFn else .undefinedVal
  | _, _ => .undefinedVal

/-- Model of Array.isArray. -/
def isJsArray : JValue → Bool
  | .arr _ => true
  | _ => false

/-- Length of an array value (0 otherwise); models .length on the
validated licenses array. -/
def jsArrayLength : JValue → Nat
  | .arr xs => xs.length
  | _ => 0

/-- Embedding of the structured branch of the parse endpoint: the
value of the expression json.licenses, else json.keys, else json
itself when it is an array, else an empty array. -/
def extractLicenses (json : JValue) : JValue :=
  let a := jsGet json "licenses"
  if truthy a then a
  else
    let b := jsGet json "keys"
    if truthy b then b
    else
      match json with
      | .arr _ => json
      | _ => .arr []

/-! ## Restore job state -/

/-- The shared restoreStatus object, with the source's field names. -/
structure RestoreStatus where
  running : Bool
  total : Nat
  processed : Nat
  success : Nat
  skipped : Nat
  failed : Nat
  currentKey : String
  error : Option String
deriving DecidableEq, Repr

/-- The reset snapshot written when a restore request is accepted. -/
def resetStatus (n : Nat) : RestoreStatus :=
  ⟨true, n, 0, 0, 0, 0, "", none⟩

/-- Outcome of one awaited makeKeyAuthRequest call: either a decoded
response with its success flag and optional message, or a rejection
(transport error or undecodable body) carrying the thrown message. -/
inductive CallResult where
  | ok (success : Bool) (message : Option String)
  | exn (msg : String)
deriving DecidableEq, Repr

/-- True when the call resolved to a decoded response. -/
def isOkResult : CallResult → Bool
  | .ok _ _ => true
  | .exn _ => false

/-- The duplicate-message test of the retry loop, applied to the
lowercased message. -/
def isDupMsg (m : String) : Bool :=
  let msg := jsToLower m
  jsIncludes msg "already" || jsIncludes msg "exists" || jsIncludes msg "duplicate"

/-- The rate-limit-message test of the retry loop, applied to the
lowercased message. -/
def isRateMsg (m : String) : Bool :=
  let msg := jsToLower m
  jsIncludes msg "rate" || jsIncludes msg "limit" || jsIncludes msg "slow"

/-- One license entry of the restore request body as the loop reads
it: the key plus the optional explicit duration and level fields. -/
structure LicenseItem where
  key : String
  duration : Option Nat
  level : Option String
deriving DecidableEq, Repr

/-- The duration the loop uses: the item's explicit duration unless
it is absent or 0 (falsy in JS), in which case it is derived from the
key text. -/
def resolveDuration (li : LicenseItem) : Nat :=
  match li.duration with
  | some d => if d == 0 then parseDurationFromKeyName li.key else d
  | none => parseDurationFromKeyName li.key

/-- The level the loop uses: the item's explicit level unless it is
absent or the empty string (falsy), in which case "1". -/
def resolveLevel (li : LicenseItem) : String :=
  match li.level with
  | some s => if s == "" then "1" else s
  | none => "1"

/-- The query parameters of the add call built for one item. The
seller credential is a fixed ambient value and is not modelled. -/
structure AddParams where
  key : String
  expiry : String
  level : String
deriving DecidableEq, Repr

/-- Parameter construction for one item, as in the loop body. -/
def addParams (li : LicenseItem) : AddParams :=
  ⟨li.key, toString (resolveDuration li), resolveLevel li⟩

/-! ## The background restore worker

The worker is embedded as a trace builder: each function returns the
list of snapshots of the shared status object taken immediately
after each of the worker's field mutations, in program order. The
state reached at the end of a segment is the last element of its
trace (or the entry state if the segment mutates nothing), i.e.
getLastD of the trace with the entry state as default. Upstream
responses are supplied by a schedule (item index and attempt index
to CallResult); a user stop request (the running flag being cleared
between iterations) is supplied by a schedule from item index to
Bool. -/

/-- The bounded retry loop for one item. attempt indexes into the
schedule; retries is the remaining attempt budget. Mirrors the
source: a success response increments success and stops; a failure
response with a duplicate message increments skipped and stops; with
a rate-limit message it consumes a retry and loops; with any other
message (or no message) it increments failed and stops; a rejected
call consumes a retry, increments failed only when the budget is
exhausted by that rejection, and otherwise loops. When the budget
runs out through rate-limit responses alone, the loop exits without
touching any counter. -/
def retryTrace (sched : Nat → CallResult) : Nat → Nat → RestoreStatus → List RestoreStatus
  | _, 0, _ => []
  | attempt, r + 1, st =>
    match sched attempt with
    | .ok true _ => [{ st with success := st.success + 1 }]
    | .ok false (some m) =>
      if isDupMsg m then [{ st with skipped := st.skipped + 1 }]
      else if isRateMsg m then retryTrace sched (attempt + 1) r st
      else [{ st with failed := st.failed + 1 }]
    | .ok false none => [{ st with failed := st.failed + 1 }]
    | .exn _ =>
      if r == 0 then [{ st with failed := st.failed + 1 }]
      else retryTrace sched (attempt + 1) r st

/-- The per-item loop of the worker. i is the loop index. Before
each iteration the cooperative stop flag is applied (stop i true
models a stop request, or any other external clearing of running,
delivered before this iteration's check); when running has been
cleared the worker records the stop error and breaks. Otherwise it
publishes the current key, optimistically bumps processed to i + 1,
builds the add parameters and runs the retry loop. The inter-item
delays change no state. -/
def processItems (sched : Nat → Nat → CallResult) (stop : Nat → Bool) :
    List LicenseItem → Nat → RestoreStatus → List RestoreStatus
  | [], _, _ => []
  | li :: rest, i, st =>
    let st1 := if stop i then { st with running := false } else st
    let stopSnap := if stop i then [st1] else []
    if st1.running then
      let st2 := { st1 with currentKey := li.key }
      let st3 := { st2 with processed := i + 1 }
      let _params := addParams li
      let rt := retryTrace (sched i) 0 3 st3
      let st4 := rt.getLastD st3
      stopSnap ++ st2 :: st3 :: rt ++ processItems sched stop rest (i + 1) st4
    else
      stopSnap ++ [{ st1 with error := some "Stopped by user" }]

/-- The finalization the worker falls through to after the loop:
clear running, then publish the Complete marker. -/
def finalizeTrace (st : RestoreStatus) : List RestoreStatus :=
  let s1 := { st with running := false }
  [s1, { s1 with currentKey := "Complete" }]

/-- The loop followed by its finalization. -/
def runLoopTrace (sched : Nat → Nat → CallResult) (stop : Nat → Bool)
    (items : List LicenseItem) (st : RestoreStatus) : List RestoreStatus :=
  let tr := processItems sched stop items 0 st
  tr ++ finalizeTrace (tr.getLastD st)

/-- The mutations of the route's catch handler when the background
part of the handler throws: clear running, then record the thrown
message in the error field. -/
def abortTrace (st : RestoreStatus) (m : String) : List RestoreStatus :=
  let s1 := { st with running := false }
  [s1, { s1 with error := some m }]

/-- The whole background execution of an accepted restore, starting
from the reset snapshot: the optional pre-restore wipe issues the
delete-all-keys call and then the delete-all-users call, with no
handling of its own — a rejection of either call propagates to the
route's catch handler and the loop never runs; otherwise the
responses are discarded and the loop runs. w1 and w2 are the two
wipe call outcomes (unused unless wipeFirst). -/
def runRestoreTrace (items : List LicenseItem) (wipeFirst : Bool) (w1 w2 : CallResult)
    (sched : Nat → Nat → CallResult) (stop : Nat → Bool) : List RestoreStatus :=
  let st0 := resetStatus items.length
  if wipeFirst then
    let stW := { st0 with currentKey := "Wiping database..." }
    match w1 with
    | .exn m => st0 :: stW :: abortTrace stW m
    | .ok _ _ =>
      match w2 with
      | .exn m => st0 :: stW :: abortTrace stW m
      | .ok _ _ => st0 :: stW :: runLoopTrace sched stop items stW
  else
    st0 :: runLoopTrace sched stop items st0

/-- The terminal snapshot of a background execution. -/
def runRestoreFinal (items : List LicenseItem) (wipeFirst : Bool) (w1 w2 : CallResult)
    (sched : Nat → Nat → CallResult) (stop : Nat → Bool) : RestoreStatus :=
  (runRestoreTrace items wipeFirst w1 w2 sched stop).getLastD (resetStatus items.length)

/-! ## The restore start handler -/

/-- The response the start handler sends: the acknowledgement with
the total, or a failure body with an error message. -/
inductive StartResp where
  | started (total : Nat)
  | failedResp (errMsg : String)
deriving DecidableEq, Repr

/-- Embedding of the synchronous part of the restore route together
with its catch handler: the connected guard, the
already-in-progress guard, the array validation, and on success the
status reset and the acknowledgement. Each thrown guard error is
caught by the route's catch handler, which clears running and
records the message in the error field before responding (headers
are not yet sent on these paths). The returned Bool says whether the
background execution proceeds. -/
def startRestore (connected : Bool) (licenses : JValue) (st : RestoreStatus) :
    StartResp × RestoreStatus × Bool :=
  if !connected then
    (.failedResp "Not connected",
      { st with running := false, error := some "Not connected" }, false)
  else if st.running then
    (.failedResp "Restore already in progress",
      { st with running := false, error := some "Restore already in progress" }, false)
  else if !(truthy licenses) || !(isJsArray licenses) then
    (.failedResp "Invalid licenses data",
      { st with running := false, error := some "Invalid licenses data" }, false)
  else
    (.started (jsArrayLength licenses), resetStatus (jsArrayLength licenses), true)

/-! ## Derived measures used by the claims -/

/-- The bucket sum of a snapshot. -/
def countSum (s : RestoreStatus) : Nat := s.success + s.skipped + s.failed

/-- Pointwise order on the three outcome counters between two
snapshots. -/
def countsMono (a b : RestoreStatus) : Prop :=
  a.success ≤ b.success ∧ a.skipped ≤ b.skipped ∧ a.failed ≤ b.failed

/-! ## Generic list lemmas used by the trace proofs -/

/-- The last element with default is the default or a member. -/
theorem getLastD_cases (l : List α) (d : α) : l.getLastD d = d ∨ l.getLastD d ∈ l := by
  induction l generalizing d with
  | nil => exact Or.inl rfl
  | cons a l ih =>
    right
    rw [List.getLastD_cons]
    rcases ih a with h | h
    · rw [h]; exact List.mem_cons_self a l
    · exact List.mem_cons_of_mem a h

/-- getLastD distributes over append. -/
theorem getLastD_append (l₁ l₂ : List α) (d : α) :
    (l₁ ++ l₂).getLastD d = l₂.getLastD (l₁.getLastD d) := by
  induction l₁ generalizing d with
  | nil => rfl
  | cons a l₁ ih =>
    rw [List.cons_append, List.getLastD_cons, List.getLastD_cons, ih]

/-- Chains concatenate when the second chain is anchored at the
first one's last element. -/
theorem chain_append_getLastD {R : α → α → Prop} :
    ∀ (l₁ : List α) (a : α) (l₂ : List α),
      List.Chain R a l₁ → List.Chain R (l₁.getLastD a) l₂ → List.Chain R a (l₁ ++ l₂) := by
  intro l₁
  induction l₁ with
  | nil => intro a l₂ _ h2; exact h2
  | cons b t ih =>
    intro a l₂ h1 h2
    rw [List.getLastD_cons] at h2
    rcases List.chain_cons.mp h1 with ⟨hab, h1'⟩
    exact List.chain_cons.mpr ⟨hab, ih b l₂ h1' h2⟩

/-! ## Substring lemmas -/

/-- chPre is the leading-segment relation. -/
theorem chPre_iff (p : List Char) : ∀ l, chPre p l = true ↔ ∃ t, l = p ++ t := by
  induction p with
  | nil => intro l; simp [chPre]
  | cons a as ih =>
    intro l
    cases l with
    | nil => simp [chPre]
    | cons b bs =>
      simp only [chPre, Bool.and_eq_true, beq_iff_eq, ih, List.cons_append, List.cons.injEq]
      constructor
      · rintro ⟨hab, t, ht⟩; exact ⟨t, hab.symm, ht⟩
      · rintro ⟨t, hba, ht⟩; exact ⟨hba.symm, t, ht⟩

/-- chSub is the substring-occurrence relation. -/
theorem chSub_iff (p : List Char) : ∀ l, chSub p l = true ↔ ∃ l₁ l₂, l = l₁ ++ (p ++ l₂) := by
  intro l
  induction l with
  | nil =>
    simp only [chSub, chPre_iff]
    constructor
    · rintro ⟨t, ht⟩; exact ⟨[], t, by simpa using ht⟩
    · rintro ⟨l₁, l₂, h⟩
      rcases List.append_eq_nil.mp h.symm with ⟨h1, h2⟩
      exact ⟨l₂, by simp [h2]⟩
  | cons c cs ih =>
    simp only [chSub, Bool.or_eq_true, chPre_iff, ih]
    constructor
    · rintro (⟨t, ht⟩ | ⟨l₁, l₂, h⟩)
      · exact ⟨[], t, by simpa using ht⟩
      · exact ⟨c :: l₁, l₂, by simp [h]⟩
    · rintro ⟨l₁, l₂, h⟩
      cases l₁ with
      | nil => exact Or.inl ⟨l₂, by simpa using h⟩
      | cons d ds =>
        rw [List.cons_append] at h
        injection h with h1 h2
        exact Or.inr ⟨ds, l₂, h2⟩

/-- A substring occurrence survives mapping. -/
theorem chSub_map (f : Char → Char) (p l : List Char) (h : chSub p l = true) :
    chSub (p.map f) (l.map f) = true := by
  rcases (chSub_iff p l).mp h with ⟨l₁, l₂, rfl⟩
  exact (chSub_iff _ _).mpr ⟨l₁.map f, l₂.map f, by simp⟩

/-- An occurrence of a concatenation yields an occurrence of its
first part. -/
theorem chSub_append_left (p q l : List Char) (h : chSub (p ++ q) l = true) :
    chSub p l = true := by
  rcases (chSub_iff _ l).mp h with ⟨l₁, l₂, rfl⟩
  exact (chSub_iff p _).mpr ⟨l₁, q ++ l₂, by simp⟩

/-- A message containing the phrase of the claim is classified as a
duplicate by the loop's lowercased substring checks. -/
theorem isDupMsg_of_alreadyExists (m : String) (h : jsIncludes m "already exists" = true) :
    isDupMsg m = true := by
  unfold jsIncludes at h
  have h2 : chSub (("already exists").data.map Char.toLower) (m.data.map Char.toLower) = true :=
    chSub_map Char.toLower _ _ h
  have he : ("already exists").data.map Char.toLower = ("already exists").data := by decide
  rw [he] at h2
  have hs : ("already exists").data = ("already").data ++ (" exists").data := by decide
  have h3 : chSub ("already").data (m.data.map Char.toLower) = true :=
    chSub_append_left _ _ _ (hs ▸ h2)
  unfold isDupMsg jsIncludes jsToLower
  simp only [String.data]
  rw [h3]
  simp

/-! ## Retry-loop lemmas -/

/-- Every snapshot of the retry loop preserves all fields except the
outcome counters, never decreases a counter, and raises the bucket
sum by at most one. -/
theorem retryTrace_mem (sched : Nat → CallResult) :
    ∀ (r a : Nat) (st : RestoreStatus), ∀ s ∈ retryTrace sched a r st,
      s.running = st.running ∧ s.total = st.total ∧ s.processed = st.processed ∧
      s.currentKey = st.currentKey ∧ s.error = st.error ∧
      st.success ≤ s.success ∧ st.skipped ≤ s.skipped ∧ st.failed ≤ s.failed ∧
      countSum s ≤ countSum st + 1 := by
  intro r
  induction r with
  | zero => intro a st s hs; simp [retryTrace] at hs
  | succ r ih =>
    intro a st s hs
    rw [retryTrace] at hs
    cases hcall : sched a with
    | ok success message =>
      rw [hcall] at hs
      cases success with
      | true =>
        simp only [List.mem_singleton] at hs
        subst hs; simp [countSum]; omega
      | false =>
        cases message with
        | none =>
          simp only [List.mem_singleton] at hs
          subst hs; simp [countSum]; omega
        | some m =>
          simp only [] at hs
          by_cases hd : isDupMsg m
          · simp only [hd, if_true, List.mem_singleton] at hs
            subst hs; simp [countSum]; omega
          · by_cases hr : isRateMsg m
            · simp only [hd, hr, if_true, if_false, Bool.false_eq_true] at hs
              exact ih (a + 1) st s hs
            · simp only [hd, hr, if_false, Bool.false_eq_true, List.mem_singleton] at hs
              subst hs; simp [countSum]; omega
    | exn m =>
      rw [hcall] at hs
      by_cases hr : r = 0
      · simp only [hr, beq_self_eq_true, if_true, List.mem_singleton] at hs
        subst hs; simp [countSum]; omega
      · simp only [beq_iff_eq, hr, if_false] at hs
        exact ih (a + 1) st s hs

/-- The retry-loop trace is a countsMono chain from its entry
state. -/
theorem retryTrace_chain (sched : Nat → CallResult) :
    ∀ (r a : Nat) (st : RestoreStatus), List.Chain countsMono st (retryTrace sched a r st) := by
  intro r
  induction r with
  | zero => intro a st; simp [retryTrace]
  | succ r ih =>
    intro a st
    rw [retryTrace]
    cases hcall : sched a with
    | ok success message =>
      cases success with
      | true => exact List.Chain.cons (by simp [countsMono]) List.Chain.nil
      | false =>
        cases message with
        | none => exact List.Chain.cons (by simp [countsMono]) List.Chain.nil
        | some m =>
          by_cases hd : isDupMsg m
          · simp only [hd, if_true]
            exact List.Chain.cons (by simp [countsMono]) List.Chain.nil
          · by_cases hr : isRateMsg m
            · simp only [hd, hr, if_true, if_false, Bool.false_eq_true]
              exact ih (a + 1) st
            · simp only [hd, hr, if_false, Bool.false_eq_true]
              exact List.Chain.cons (by simp [countsMono]) List.Chain.nil
    | exn m =>
      by_cases hr : r = 0
      · simp only [hr]
        exact List.Chain.cons (by simp [countsMono]) List.Chain.nil
      · simp only [beq_iff_eq, hr, if_false]
        exact ih (a + 1) st

/-- The state at the end of the retry loop preserves all fields
except the outcome counters, never decreases a counter, and raises
the bucket sum by at most one. -/
theorem retryFinal_spec (sched : Nat → CallResult) (a r : Nat) (st : RestoreStatus) :
    ((retryTrace sched a r st).getLastD st).running = st.running ∧
    ((retryTrace sched a r st).getLastD st).total = st.total ∧
    ((retryTrace sched a r st).getLastD st).processed = st.processed ∧
    ((retryTrace sched a r st).getLastD st).currentKey = st.currentKey ∧
    ((retryTrace sched a r st).getLastD st).error = st.error ∧
    countSum st ≤ countSum ((retryTrace sched a r st).getLastD st) ∧
    countSum ((retryTrace sched a r st).getLastD st) ≤ countSum st + 1 := by
  rcases getLastD_cases (retryTrace sched a r st) st with h | h
  · rw [h]; exact ⟨rfl, rfl, rfl, rfl, rfl, le_refl _, Nat.le_succ _⟩
  · obtain ⟨h1, h2, h3, h4, h5, h6, h7, h8, h9⟩ := retryTrace_mem sched r a st _ h
    exact ⟨h1, h2, h3, h4, h5, by unfold countSum; omega, h9⟩

/-! ## Per-item loop lemmas -/

/-- Every snapshot of the per-item loop satisfies the counting
invariant: the bucket sum is bounded by processed, processed is
bounded by total, and total is never rewritten. Preconditions: on
entry processed equals the loop index, the bucket sum is bounded by
the loop index, and the remaining items fit under total. -/
theorem processItems_mem (sched : Nat → Nat → CallResult) (stop : Nat → Bool) :
    ∀ (items : List LicenseItem) (i : Nat) (st : RestoreStatus),
      st.processed = i → countSum st ≤ i → i + items.length ≤ st.total →
      ∀ s ∈ processItems sched stop items i st,
        countSum s ≤ s.processed ∧ s.processed ≤ s.total ∧ s.total = st.total := by
  intro items
  induction items with
  | nil => intro i st _ _ _ s hs; simp [processItems] at hs
  | cons li rest ih =>
    intro i st hp hc ht s hs
    rw [processItems] at hs
    simp only [List.length_cons] at ht
    by_cases hstop : stop i = true
    · simp [hstop] at hs
      rcases hs with rfl | rfl <;> simp [countSum] at hc ⊢ <;> omega
    · simp only [hstop, Bool.false_eq_true, if_false, List.nil_append] at hs
      by_cases hrun : st.running = true
      · rw [if_pos hrun] at hs
        simp only [List.mem_append, List.mem_cons] at hs
        rcases hs with (rfl | rfl | hs) | hs
        · simp [countSum] at hc ⊢; omega
        · simp [countSum] at hc ⊢; omega
        · obtain ⟨_, h2, h3, _, _, _, _, _, h9⟩ :=
            retryTrace_mem (sched i) 3 0 _ s hs
          simp [countSum] at h9 h2 h3 hc ⊢
          omega
        · obtain ⟨hr1, hr2, hr3, _, _, _, hr8⟩ :=
            retryFinal_spec (sched i) 0 3 { st with currentKey := li.key, processed := i + 1 }
          have hrec := ih (i + 1)
            ((retryTrace (sched i) 0 3 { st with currentKey := li.key, processed := i + 1 }).getLastD
              { st with currentKey := li.key, processed := i + 1 })
            hr3
            (by have h8 := hr8; have hc2 := hc; simp [countSum] at h8 hc2 ⊢; omega)
            (by have h2 := hr2; simp at h2 ⊢; omega) s hs
          refine ⟨hrec.1, hrec.2.1, ?_⟩
          rw [hrec.2.2, hr2]
      · simp [hrun] at hs
        subst hs
        simp [countSum] at hc ⊢
        omega

/-- The per-item loop trace is a countsMono chain from its entry
state. -/
theorem processItems_chain (sched : Nat → Nat → CallResult) (stop : Nat → Bool) :
    ∀ (items : List LicenseItem) (i : Nat) (st : RestoreStatus),
      List.Chain countsMono st (processItems sched stop items i st) := by
  intro items
  induction items with
  | nil => intro i st; simp [processItems]
  | cons li rest ih =>
    intro i st
    rw [processItems]
    by_cases hstop : stop i = true
    · simp only [hstop, if_true]
      refine List.Chain.cons ?_ (List.Chain.cons ?_ ?_) <;> simp [countsMono]
    · simp only [hstop, Bool.false_eq_true, if_false, List.nil_append]
      by_cases hrun : st.running = true
      · rw [if_pos hrun]
        refine chain_append_getLastD _ _ _ ?_ ?_
        · exact List.Chain.cons (by simp [countsMono])
            (List.Chain.cons (by simp [countsMono]) (retryTrace_chain (sched i) 3 0 _))
        · rw [List.getLastD_cons, List.getLastD_cons]
          exact ih (i + 1) _
      · rw [if_neg hrun]
        exact List.Chain.cons (by simp [countsMono]) List.Chain.nil

/-- With no stop request, the loop runs every item: the final state
has processed equal to the item count, keeps running set, and leaves
the error field untouched. -/
theorem processItems_noStop (sched : Nat → Nat → CallResult) :
    ∀ (items : List LicenseItem) (i : Nat) (st : RestoreStatus),
      st.running = true → st.processed = i →
      ((processItems sched (fun _ => false) items i st).getLastD st).processed = i + items.length ∧
      ((processItems sched (fun _ => false) items i st).getLastD st).running = true ∧
      ((processItems sched (fun _ => false) items i st).getLastD st).error = st.error ∧
      ((processItems sched (fun _ => false) items i st).getLastD st).total = st.total := by
  intro items
  induction items with
  | nil => intro i st hrun hp; simp [processItems, hp, hrun]
  | cons li rest ih =>
    intro i st hrun hp
    rw [processItems]
    simp only [Bool.false_eq_true, if_false, List.nil_append]
    rw [if_pos hrun, getLastD_append, List.getLastD_cons, List.getLastD_cons]
    obtain ⟨hr1, hr2, hr3, _, hr5, _, _⟩ :=
      retryFinal_spec (sched i) 0 3 { st with currentKey := li.key, processed := i + 1 }
    simp only [] at hr1 hr2 hr3 hr5
    obtain ⟨ih1, ih2, ih3, ih4⟩ := ih (i + 1) _ (by rw [hr1]; exact hrun) hr3
    rw [ih1, ih2, ih3, ih4, hr2, hr5]
    simp
    omega

/-- The two finalization snapshots keep every counter, processed and
total of the state the loop ended in. -/
theorem finalizeTrace_mem (st0 : RestoreStatus) :
    ∀ s ∈ finalizeTrace st0,
      s.success = st0.success ∧ s.skipped = st0.skipped ∧ s.failed = st0.failed ∧
      s.processed = st0.processed ∧ s.total = st0.total := by
  intro s hs
  simp only [finalizeTrace, List.mem_cons, List.mem_singleton, List.not_mem_nil, or_false] at hs
  rcases hs with rfl | rfl <;> simp

/-- The finalization snapshots form a countsMono chain. -/
theorem finalizeTrace_chain (st0 : RestoreStatus) :
    List.Chain countsMono st0 (finalizeTrace st0) := by
  refine List.Chain.cons ?_ (List.Chain.cons ?_ List.Chain.nil) <;> simp [countsMono]

/-- Every snapshot of the loop-plus-finalization satisfies the
counting invariant, and the whole trace is a countsMono chain,
provided the entry state is freshly reset (processed and all
counters zero, total the item count). -/
theorem runLoop_inv (sched : Nat → Nat → CallResult) (stop : Nat → Bool)
    (items : List LicenseItem) (st : RestoreStatus)
    (hp : st.processed = 0) (hc : countSum st = 0) (ht : st.total = items.length) :
    (∀ s ∈ runLoopTrace sched stop items st,
      countSum s ≤ s.processed ∧ s.processed ≤ s.total ∧ countSum s ≤ s.total) ∧
    List.Chain countsMono st (runLoopTrace sched stop items st) := by
  have hfin : countSum ((processItems sched stop items 0 st).getLastD st) ≤
        ((processItems sched stop items 0 st).getLastD st).processed ∧
      ((processItems sched stop items 0 st).getLastD st).processed ≤
        ((processItems sched stop items 0 st).getLastD st).total ∧
      ((processItems sched stop items 0 st).getLastD st).total = st.total := by
    rcases getLastD_cases (processItems sched stop items 0 st) st with he | hm
    · rw [he]; exact ⟨by omega, by omega, rfl⟩
    · exact processItems_mem sched stop items 0 st hp (by omega) (by omega) _ hm
  constructor
  · intro s hs
    rw [runLoopTrace] at hs
    simp only [List.mem_append] at hs
    rcases hs with hs | hs
    · obtain ⟨h1, h2, h3⟩ := processItems_mem sched stop items 0 st hp (by omega) (by omega) s hs
      exact ⟨h1, h2, by omega⟩
    · obtain ⟨e1, e2, e3, e4, e5⟩ := finalizeTrace_mem _ s hs
      obtain ⟨hf1, hf2, hf3⟩ := hfin
      simp only [countSum] at hf1 ⊢
      omega
  · rw [runLoopTrace]
    exact chain_append_getLastD _ _ _ (processItems_chain sched stop items 0 st)
      (finalizeTrace_chain _)

/-! ## Concrete fixtures used by the claim theorems -/

/-- An idle status snapshot (no job ever run). -/
def idleStatus : RestoreStatus := ⟨false, 0, 0, 0, 0, 0, "", none⟩

/-- A status snapshot of a first job mid-run: 5 items total, 2
processed, 1 succeeded, 1 skipped. -/
def midRunStatus : RestoreStatus := ⟨true, 5, 2, 1, 1, 0, "Soryn-K2", none⟩

/-- A decoded success response. -/
def okResp : CallResult := CallResult.ok true none

/-- A decoded failure response whose message indicates rate
limiting. -/
def rateLimitResp : CallResult := CallResult.ok false (some "Rate limit exceeded, slow down")

/-- A one-item restore input. -/
def soloItem : List LicenseItem := [⟨"Soryn-A", none, none⟩]

/-- A three-item restore input. -/
def threeItems : List LicenseItem :=
  [⟨"Soryn-A", none, none⟩, ⟨"Soryn-B", none, none⟩, ⟨"Soryn-C", none, none⟩]

/-- A schedule on which every upstream call succeeds. -/
def okSched : Nat → Nat → CallResult := fun _ _ => okResp

/-- A stop request delivered before the second item's iteration. -/
def stopAtSecond : Nat → Bool := fun i => i == 1

/-- A status snapshot mid-run used by the duplicate-response
claim. -/
def dupStatus : RestoreStatus := ⟨true, 4, 1, 0, 0, 0, "Soryn-Z", none⟩

/-- A JSON record with no key field. -/
def keylessRecord : JValue := JValue.obj [("level", JValue.num 2)]

/-- The tabular backup fixture of the parser claim: a box-drawing
border line, the column-header line, and one data line. -/
def tabularBackup : String :=
  "┌──────────────────┐\nKey   Status   Level\nSoryn-AAAAA-BBBBB  Used  2"

/-! ## Claim theorems -/

/-- Claim C1. The claim states that a restore-start request made
while a job is running fails with the already-in-progress error and
performs no state change. The code does send the failure response,
but its catch handler then clears running and writes the error
message into the snapshot, so the first job's snapshot IS altered
(and the worker will observe running = false and stop): the
no-state-change part is a code bug. This theorem evaluates the
embedded handler on a mid-run snapshot and exhibits the mutation. -/
theorem startRestore_second_start_mutates :
    startRestore true (JValue.arr [JValue.obj [("key", JValue.str "Soryn-NEW")]]) midRunStatus =
      (StartResp.failedResp "Restore already in progress",
        { midRunStatus with running := false, error := some "Restore already in progress" },
        false) ∧
    { midRunStatus with running := false, error := some "Restore already in progress" } ≠
      midRunStatus := by
  exact ⟨rfl, by decide⟩

/-- Claim C2. The claim states that an item whose upstream responses
are all rate-limit failures consumes its three retry attempts and is
then counted by incrementing failed. In the code the rate-limit
branch only decrements the budget, and no bucket is incremented when
the budget runs out that way: the run below processes one such item
to completion with success = skipped = failed = 0, so the item is
counted in no bucket. The second conjunct shows the retry loop
itself mutates nothing on an all-rate-limit schedule. -/
theorem rateLimit_exhaustion_uncounted :
    runRestoreFinal soloItem false okResp okResp (fun _ _ => rateLimitResp) (fun _ => false) =
      ⟨false, 1, 1, 0, 0, 0, "Complete", none⟩ ∧
    retryTrace (fun _ => rateLimitResp) 0 3 (resetStatus 1) = [] := by
  exact ⟨by decide, by decide⟩

/-- Claim C5, counterexample. The claim states that an empty list,
or a list containing records lacking a key, fails with the
invalid-input error and causes no mutation. The embedded handler
accepts the empty list (job started, total 0) and accepts a list
whose only record has no key (job started, total 1). -/
theorem empty_list_start_accepted :
    startRestore true (JValue.arr []) idleStatus = (StartResp.started 0, resetStatus 0, true) ∧
    startRestore true (JValue.arr [JValue.obj [("level", JValue.num 1)]]) idleStatus =
      (StartResp.started 1, resetStatus 1, true) := by
  exact ⟨rfl, rfl⟩

/-- Claim C5, amended: only a missing/falsy or non-array licenses
value is rejected, with the invalid-input error; the rejection
leaves the counters untouched but writes the error message into the
snapshot's error field (running stays false). -/
theorem invalid_licenses_rejection :
    ∀ (lic : JValue) (st : RestoreStatus), st.running = false →
      truthy lic = false ∨ isJsArray lic = false →
      startRestore true lic st =
        (StartResp.failedResp "Invalid licenses data",
          { st with running := false, error := some "Invalid licenses data" }, false) := by
  intro lic st hrun hbad
  rcases hbad with h | h <;> simp [startRestore, hrun, h]

/-- Witness for the amended C5 theorem at the null input. -/
theorem invalid_licenses_rejection_witness :
    idleStatus.running = false ∧ truthy JValue.null = false ∧
    startRestore true JValue.null idleStatus =
      (StartResp.failedResp "Invalid licenses data",
        { idleStatus with running := false, error := some "Invalid licenses data" }, false) :=
  ⟨rfl, rfl, invalid_licenses_rejection JValue.null idleStatus rfl (Or.inl rfl)⟩

/-- Claim C6: duration derivation is total and deterministic (a Lean
function, always returning one of the five fixed values), and the
three sample keys map to 2592000, the unlimited sentinel, and the
unlimited sentinel respectively. -/
theorem parseDuration_spec :
    parseDurationFromKeyName "Soryn-XXXX-1month" = 2592000 ∧
    parseDurationFromKeyName "Soryn-XXXX-lifetime" = 999999999 ∧
    parseDurationFromKeyName "Soryn-XXXX" = 999999999 ∧
    ∀ s : String,
      parseDurationFromKeyName s ∈ ([999999999, 2592000, 604800, 86400, 31536000] : List Nat) := by
  refine ⟨by decide, by decide, by decide, fun s => ?_⟩
  simp only [parseDurationFromKeyName]
  split_ifs <;> simp

/-- Claim C7: a failure response whose message contains the phrase
of the claim is classified as a duplicate, so the item's retry loop
increments skipped by exactly one, touches no other field, and
returns without consulting the schedule again. -/
theorem already_exists_skipped :
    ∀ (sched : Nat → CallResult) (a r : Nat) (st : RestoreStatus) (m : String),
      sched a = CallResult.ok false (some m) → jsIncludes m "already exists" = true →
      retryTrace sched a (r + 1) st = [{ st with skipped := st.skipped + 1 }] := by
  intro sched a r st m hsched hm
  have hd : isDupMsg m = true := isDupMsg_of_alreadyExists m hm
  rw [retryTrace, hsched]
  simp [hd]

/-- Witness for C7: a concrete duplicate response consumes one
attempt and bumps skipped once. -/
theorem already_exists_skipped_witness :
    jsIncludes "Key already exists" "already exists" = true ∧
    retryTrace (fun _ => CallResult.ok false (some "Key already exists")) 0 3 dupStatus =
      [{ dupStatus with skipped := dupStatus.skipped + 1 }] :=
  ⟨by decide,
    already_exists_skipped (fun _ => CallResult.ok false (some "Key already exists")) 0 2
      dupStatus "Key already exists" rfl (by decide)⟩

/-- Claim C8: the tabular fixture yields exactly the one record of
its data line (key, Used, level 2, unlimited duration derived from
the key), and the border line and header line alone yield no
records. -/
theorem parseBackupText_tabular :
    parseBackupText tabularBackup = [⟨"Soryn-AAAAA-BBBBB", "Used", "2", 999999999⟩] ∧
    parseBackupText "┌──────────────────┐" = [] ∧
    parseBackupText "Key   Status   Level" = [] := by
  exact ⟨by decide, by decide, by decide⟩

/-- Claim C9, counterexample. The claim states that every record
missing a key is dropped in the structured (JSON) branch and that an
array document is used directly. Neither holds: a keyless record
under the licenses field is returned as-is, and an array document
yields the array's truthy inherited keys method rather than the
document. -/
theorem json_keyless_record_kept :
    extractLicenses (JValue.obj [("licenses", JValue.arr [keylessRecord])]) =
      JValue.arr [keylessRecord] ∧
    jsGet keylessRecord "key" = JValue.undefinedVal ∧
    extractLicenses (JValue.arr [keylessRecord]) = JValue.builtinFn := by
  exact ⟨rfl, rfl, rfl⟩

/-- Claim C9, amended: the structured branch evaluates the source's
extraction expression with no key filtering: a truthy licenses field
is returned unfiltered, else a truthy keys field unfiltered, and an
array document yields the inherited keys method. -/
theorem extractLicenses_spec :
    (∀ rs : List JValue,
      extractLicenses (JValue.obj [("licenses", JValue.arr rs)]) = JValue.arr rs) ∧
    (∀ rs : List JValue,
      extractLicenses (JValue.obj [("keys", JValue.arr rs)]) = JValue.arr rs) ∧
    (∀ rs : List JValue, extractLicenses (JValue.arr rs) = JValue.builtinFn) := by
  refine ⟨fun rs => rfl, fun rs => rfl, fun rs => rfl⟩

/-- Claim C3: at every observable snapshot of a run (reset, wipe
marker, abort, every per-item mutation, cancellation, and
finalization), success + skipped + failed ≤ processed ≤ total and
the bucket sum never exceeds total; and consecutive snapshots never
decrease any of the three buckets (the trace is a countsMono
chain). -/
theorem restore_counts_invariant :
    ∀ (items : List LicenseItem) (wipeFirst : Bool) (w1 w2 : CallResult)
      (sched : Nat → Nat → CallResult) (stop : Nat → Bool),
      (∀ s ∈ runRestoreTrace items wipeFirst w1 w2 sched stop,
        countSum s ≤ s.processed ∧ s.processed ≤ s.total ∧ countSum s ≤ s.total) ∧
      List.Chain' countsMono (runRestoreTrace items wipeFirst w1 w2 sched stop) := by
  intro items wipeFirst w1 w2 sched stop
  cases wipeFirst with
  | false =>
    simp only [runRestoreTrace, Bool.false_eq_true, if_false]
    constructor
    · intro s hs
      rcases List.mem_cons.mp hs with rfl | hs
      · simp [resetStatus, countSum]
      · exact (runLoop_inv sched stop items (resetStatus items.length) rfl rfl rfl).1 s hs
    · show List.Chain countsMono (resetStatus items.length) _
      exact (runLoop_inv sched stop items (resetStatus items.length) rfl rfl rfl).2
  | true =>
    simp only [runRestoreTrace, if_true]
    cases w1 with
    | exn m =>
      constructor
      · intro s hs
        simp only [abortTrace, List.mem_cons, List.not_mem_nil, or_false] at hs
        rcases hs with rfl | rfl | rfl | rfl <;> simp [resetStatus, countSum]
      · show List.Chain countsMono (resetStatus items.length) _
        refine List.Chain.cons (by simp [countsMono]) ?_
        simp only [abortTrace]
        refine List.Chain.cons ?_ (List.Chain.cons ?_ List.Chain.nil) <;> simp [countsMono]
    | ok b1 m1 =>
      cases w2 with
      | exn m =>
        constructor
        · intro s hs
          simp only [abortTrace, List.mem_cons, List.not_mem_nil, or_false] at hs
          rcases hs with rfl | rfl | rfl | rfl <;> simp [resetStatus, countSum]
        · show List.Chain countsMono (resetStatus items.length) _
          refine List.Chain.cons (by simp [countsMono]) ?_
          simp only [abortTrace]
          refine List.Chain.cons ?_ (List.Chain.cons ?_ List.Chain.nil) <;> simp [countsMono]
      | ok b2 m2 =>
        constructor
        · intro s hs
          rcases List.mem_cons.mp hs with rfl | hs
          · simp [resetStatus, countSum]
          · rcases List.mem_cons.mp hs with rfl | hs
            · simp [resetStatus, countSum]
            · exact (runLoop_inv sched stop items
                { resetStatus items.length with currentKey := "Wiping database..." }
                rfl rfl rfl).1 s hs
        · show List.Chain countsMono (resetStatus items.length) _
          refine List.Chain.cons (by simp [countsMono]) ?_
          exact (runLoop_inv sched stop items
            { resetStatus items.length with currentKey := "Wiping database..." } rfl rfl rfl).2

/-- Witness for C3: the invariant instantiated on a concrete run and
a concrete member of its trace, and the chain fact on that run. -/
theorem restore_counts_invariant_witness :
    (countSum (resetStatus 1) ≤ (resetStatus 1).processed ∧
      (resetStatus 1).processed ≤ (resetStatus 1).total ∧
      countSum (resetStatus 1) ≤ (resetStatus 1).total) ∧
    List.Chain' countsMono (runRestoreTrace soloItem false okResp okResp okSched (fun _ => false)) :=
  ⟨(restore_counts_invariant soloItem false okResp okResp okSched (fun _ => false)).1
      (resetStatus 1) (by decide),
    (restore_counts_invariant soloItem false okResp okResp okSched (fun _ => false)).2⟩

/-- Claim C4, counterexample. The claim states that wipe failures,
including transport or decode errors, never abort the restore and
the items are all processed. A rejected first wipe call propagates
to the catch handler: the run ends with processed = 0 out of 1 item,
the thrown message in the error field, and no finalization. -/
theorem wipe_transport_error_aborts :
    runRestoreFinal soloItem true (CallResult.exn "socket hang up") okResp
      (fun _ _ => okResp) (fun _ => false) =
      ⟨false, 1, 0, 0, 0, 0, "Wiping database...", some "socket hang up"⟩ := by
  decide

/-- Claim C4, amended: wipe calls that yield decoded responses —
success or failure alike, since the loop ignores the wipe response
bodies — do not abort the restore, which (absent a stop request)
processes every item; only a rejected wipe call aborts. -/
theorem wipe_ok_responses_run_all_items :
    ∀ (items : List LicenseItem) (w1 w2 : CallResult) (sched : Nat → Nat → CallResult),
      isOkResult w1 = true → isOkResult w2 = true →
      (runRestoreFinal items true w1 w2 sched (fun _ => false)).processed = items.length ∧
      (runRestoreFinal items true w1 w2 sched (fun _ => false)).error = none ∧
      (runRestoreFinal items true w1 w2 sched (fun _ => false)).currentKey = "Complete" := by
  intro items w1 w2 sched h1 h2
  cases w1 with
  | exn m => simp [isOkResult] at h1
  | ok b1 m1 =>
    cases w2 with
    | exn m => simp [isOkResult] at h2
    | ok b2 m2 =>
      unfold runRestoreFinal
      simp only [runRestoreTrace, if_true]
      rw [List.getLastD_cons, List.getLastD_cons]
      simp only [runLoopTrace, getLastD_append, finalizeTrace]
      have hn := processItems_noStop sched items 0
        { resetStatus items.length with currentKey := "Wiping database..." } rfl rfl
      rw [List.getLastD_cons, List.getLastD_cons]
      refine ⟨?_, ?_, rfl⟩
      · show ((processItems sched (fun _ => false) items 0
            { resetStatus items.length with currentKey := "Wiping database..." }).getLastD
            { resetStatus items.length with currentKey := "Wiping database..." }).processed =
          items.length
        rw [hn.1]
        omega
      · show ((processItems sched (fun _ => false) items 0
            { resetStatus items.length with currentKey := "Wiping database..." }).getLastD
            { resetStatus items.length with currentKey := "Wiping database..." }).error = none
        rw [hn.2.2.1]
        rfl

/-- Witness for the amended C4 theorem: with both wipe calls decoded
(the first even a failure response), the one-item run processes its
item and completes. -/
theorem wipe_ok_responses_run_all_items_witness :
    isOkResult (CallResult.ok false (some "no keys to delete")) = true ∧
    isOkResult okResp = true ∧
    (runRestoreFinal soloItem true (CallResult.ok false (some "no keys to delete")) okResp
      (fun _ _ => okResp) (fun _ => false)).processed = soloItem.length :=
  ⟨rfl, rfl,
    (wipe_ok_responses_run_all_items soloItem (CallResult.ok false (some "no keys to delete"))
      okResp (fun _ _ => okResp) rfl rfl).1⟩

/-- Claim C10: every exit of the per-item loop, the cancellation
break included, falls through to the finalization that clears
running and sets currentKey to Complete; a concretely cancelled run
therefore ends with currentKey Complete, the stop error recorded,
and processed strictly below total — so the Complete marker does not
imply all items were processed. -/
theorem complete_on_every_loop_exit :
    (∀ (sched : Nat → Nat → CallResult) (stop : Nat → Bool)
        (items : List LicenseItem) (st : RestoreStatus),
      ((runLoopTrace sched stop items st).getLastD st).currentKey = "Complete" ∧
      ((runLoopTrace sched stop items st).getLastD st).running = false) ∧
    runRestoreFinal threeItems false okResp okResp okSched stopAtSecond =
      ⟨false, 3, 1, 1, 0, 0, "Complete", some "Stopped by user"⟩ ∧
    (runRestoreFinal threeItems false okResp okResp okSched stopAtSecond).processed <
      (runRestoreFinal threeItems false okResp okResp okSched stopAtSecond).total := by
  refine ⟨fun sched stop items st => ?_, by decide, by decide⟩
  simp only [runLoopTrace, getLastD_append, finalizeTrace]
  rw [List.getLastD_cons, List.getLastD_cons]
  exact ⟨rfl, rfl⟩

end Soryn
